import Mathlib

/-!
Verification of the annotation-store logic of `simple-label-maker`
(`src/services/azureStorage.ts` and `src/services/localFileService.ts`).

JavaScript strings are modelled as lists of characters (`JStr`), the blob
container as an association list from keys to blob contents, and each method
of `AzureStorageService` as a pure function over that state.  Stored JSON
content is modelled by the `Blob` type: a well-formed blob remembers the
value that was serialized (JSON.parse after JSON.stringify is the identity
on these records), and `Blob.malformed` models content that fails JSON.parse.
-/

set_option autoImplicit false

namespace LabelMaker

/-- JavaScript strings, modelled as lists of characters. -/
abbrev JStr := List Char

/-- Coerce a Lean string literal to the `JStr` model. -/
def jstr (s : String) : JStr := s.data

/-- Whitespace recognised by the model of JavaScript `String.trim`
(space, tab, newline, carriage return cover all identifiers in this
development). -/
def isJsWhitespace (c : Char) : Bool :=
  c = ' ' || c = '\t' || c = '\n' || c = '\r'

/-- Model of the JavaScript emptiness test `!input || input.trim() === ''`:
an empty string is falsy, and a string trims to empty iff every character is
whitespace. -/
def isBlank (s : JStr) : Bool := s.all isJsWhitespace

/-- The character class of the regex `/[\/\\\.]/` in `sanitizePath`. -/
def isPathSep (c : Char) : Bool := c = '/' || c = '\\' || c = '.'

/-- Error kinds thrown by the storage service (the source throws `Error`
values with distinct messages; routes map them to HTTP statuses). -/
inductive StoreErr where
  | invalidInput
  | notInitialized
  | corruptData
  | sampleNotFound
  | storageError
  deriving DecidableEq

/-- Character replacement of the regex `input.replace(/[\/\\\.]/g, '_')`. -/
def replChar (c : Char) : Char := if isPathSep c then '_' else c

/-- Model of `AzureStorageService.sanitizePath`: throw when the input is
empty or all-whitespace, otherwise replace every `/`, `\`, `.` by `_`
(regex replace with the character class `isPathSep`). -/
def sanitizePath (input : JStr) : Except StoreErr JStr :=
  if isBlank input then .error .invalidInput
  else .ok (input.map replChar)

/-- Label values attached to an Annotation (`AnnotationValue` in
`types/index.ts`).  Structured values (bounding boxes, polygons,
time-series) are modelled opaquely by their field assignments; the store
never inspects label values. -/
inductive AnnotValue where
  | str (s : JStr)
  | strList (l : List JStr)
  | num (n : Int)
  | structured (fields : List (JStr × JStr))
  deriving DecidableEq

/-- Model of the `Annotation` record of `types/index.ts`. -/
structure Annot where
  id : JStr
  sampleId : JStr
  userId : JStr
  userEmail : Option JStr := none
  userName : Option JStr := none
  timestamp : JStr
  labels : List (JStr × AnnotValue) := []
  status : JStr
  azureObjectId : Option JStr := none
  tenantId : Option JStr := none
  deriving DecidableEq

/-- Model of the `SampleInfo` record of `types/index.ts` (fields the store
does not read are omitted). -/
structure SampleInfo where
  id : JStr
  fileName : JStr
  deriving DecidableEq

/-- The `azureStorage` section of a project configuration. -/
structure AzureStorageCfg where
  accountName : JStr
  containerName : JStr
  dataPath : JStr
  annotationsPath : JStr
  deriving DecidableEq

/-- Model of `ProjectConfig` (fields the store does not read are omitted). -/
structure ProjectCfg where
  azureStorage : AzureStorageCfg
  samples : List SampleInfo
  deriving DecidableEq

/-- Content stored at one blob key.  `json a` is the result of
`JSON.stringify` on the record modelled by `a` (parsing it back yields a
deep-equal record); `malformed` is content on which `JSON.parse` throws. -/
inductive Blob where
  | json (a : Annot)
  | malformed
  deriving DecidableEq, Inhabited

/-- The blob container: an association list from blob names to contents,
in listing order (`listBlobsFlat` enumerates it front to back). -/
abbrev BlobStore := List (JStr × Blob)

/-- Content of the blob at key `k`, if present (first binding wins). -/
def storeGet : BlobStore → JStr → Option Blob
  | [], _ => none
  | kv :: rest, k => if kv.1 == k then some kv.2 else storeGet rest k

/-- Model of `blobClient.exists()`. -/
def blobExists (st : BlobStore) (k : JStr) : Bool :=
  (storeGet st k).isSome

/-- Model of `blockBlobClient.upload`: overwrite the binding for `k` if it
exists, otherwise append a new one. -/
def storePut (st : BlobStore) (k : JStr) (b : Blob) : BlobStore :=
  if st.any (fun kv => kv.1 == k) then
    st.map (fun kv => if kv.1 == k then (k, b) else kv)
  else
    st ++ [(k, b)]

/-- Model of `containerClient.listBlobsFlat({ prefix })`: the blobs whose
names start with `p`, in store order. -/
def listBlobsFlat (st : BlobStore) (p : JStr) : List (JStr × Blob) :=
  st.filter (fun kv => p.isPrefixOf kv.1)

/-- Model of `downloadBlobAsJson`: download the blob content and
`JSON.parse` it, throwing on malformed content. -/
def downloadBlobAsJson (b : Blob) : Except StoreErr Annot :=
  match b with
  | .json a => .ok a
  | .malformed => .error .corruptData

/-- Model of the JavaScript `s.replace(pat, '')` for a non-empty literal
pattern: remove the first occurrence of `pat` from `s` (no change when
`pat` does not occur). -/
def removeFirst (pat : JStr) : JStr → JStr
  | [] => []
  | c :: rest =>
    if pat.isPrefixOf (c :: rest) then (c :: rest).drop pat.length
    else c :: removeFirst pat rest

/-- Model of the JavaScript `s.split(sep)` for a one-character separator. -/
def splitChar (sep : Char) : JStr → List JStr
  | [] => [[]]
  | c :: rest =>
    let r := splitChar sep rest
    if c = sep then [] :: r
    else (c :: r.headD []) :: r.tail

/-- Model of `Set.add` on a JavaScript `Set` of strings (insertion order,
deduplicating). -/
def setAdd (s : List JStr) (x : JStr) : List JStr :=
  if s.contains x then s else s ++ [x]

/-- One pass of a listing loop that conditionally adds an extracted id to a
set: `f` is the per-blob extraction, applied to each listed blob in order. -/
def collectIds (f : JStr × Blob → Option JStr) (acc : List JStr) :
    List (JStr × Blob) → List JStr
  | [] => acc
  | kv :: rest =>
    match f kv with
    | some s => collectIds f (setAdd acc s) rest
    | none => collectIds f acc rest

/-- Current-layout key `{annotationsPath}/{userId}/{sampleId}.json`
(with sanitized identifiers). -/
def currentAnnotKey (apath su ss : JStr) : JStr :=
  apath ++ jstr "/" ++ su ++ jstr "/" ++ ss ++ jstr ".json"

/-- Legacy-layout key `{annotationsPath}/{sampleId}_{userId}.json`
(with sanitized identifiers). -/
def legacyAnnotKey (apath ss su : JStr) : JStr :=
  apath ++ jstr "/" ++ ss ++ jstr "_" ++ su ++ jstr ".json"

/-- Model of `AzureStorageService.saveAnnotation` on an initialized
service.  Returns the store after the call together with the call's
outcome; a thrown validation error leaves the store untouched because the
throw happens before the upload. -/
def saveAnnotCore (cfg : ProjectCfg) (st : BlobStore) (a : Annot) :
    BlobStore × Except StoreErr Unit :=
  match sanitizePath a.userId with
  | .error e => (st, .error e)
  | .ok su =>
    match sanitizePath a.sampleId with
    | .error e => (st, .error e)
    | .ok ss =>
      let annotPath := currentAnnotKey cfg.azureStorage.annotationsPath su ss
      (storePut st annotPath (.json a), .ok ())

/-- Model of `AzureStorageService.getAnnotation` on an initialized service:
check the current-layout key first (`exists` then download), then fall back
to the legacy-layout key, and return `none` when both are absent. -/
def getAnnotCore (cfg : ProjectCfg) (st : BlobStore) (sampleId userId : JStr) :
    Except StoreErr (Option Annot) :=
  match sanitizePath userId with
  | .error e => .error e
  | .ok su =>
    match sanitizePath sampleId with
    | .error e => .error e
    | .ok ss =>
      let annotPath := currentAnnotKey cfg.azureStorage.annotationsPath su ss
      match storeGet st annotPath with
      | some b => (downloadBlobAsJson b).map some
      | none =>
        let legacyPath := legacyAnnotKey cfg.azureStorage.annotationsPath ss su
        match storeGet st legacyPath with
        | some b => (downloadBlobAsJson b).map some
        | none => .ok none

/-- The new-structure test of `listAnnotationsForSample`: the blob name
under the prefix has exactly two path segments, a non-empty first segment,
and a second segment equal to `{sanitizedSampleId}.json`. -/
def isNewStructureMatch (ss blobName : JStr) : Bool :=
  let pathSegments := splitChar '/' blobName
  pathSegments.length == 2 && !(pathSegments.headD []).isEmpty &&
    pathSegments.getD 1 [] == ss ++ jstr ".json"

/-- The legacy-structure test of `listAnnotationsForSample`: the blob name
under the prefix starts with `{sanitizedSampleId}_` and ends with `.json`
(the source imposes no restriction on path separators here). -/
def isLegacyStructureMatch (ss blobName : JStr) : Bool :=
  (ss ++ jstr "_").isPrefixOf blobName && (jstr ".json").isSuffixOf blobName

/-- The loop body of `listAnnotationsForSample`: walk the listed blobs in
order, download every one whose name matches either structure, and abort on
the first decode failure (the source awaits each download inside the loop
with no per-item error handling). -/
def collectMatchingAnnots (ss pfx : JStr) :
    List (JStr × Blob) → Except StoreErr (List Annot)
  | [] => .ok []
  | (name, b) :: rest =>
    let blobName := removeFirst pfx name
    if isNewStructureMatch ss blobName || isLegacyStructureMatch ss blobName then
      match downloadBlobAsJson b with
      | .error e => .error e
      | .ok a => (collectMatchingAnnots ss pfx rest).map (fun l => a :: l)
    else
      collectMatchingAnnots ss pfx rest

/-- Model of `AzureStorageService.listAnnotationsForSample` on an
initialized service. -/
def listAnnotsForSampleCore (cfg : ProjectCfg) (st : BlobStore) (sampleId : JStr) :
    Except StoreErr (List Annot) :=
  match sanitizePath sampleId with
  | .error e => .error e
  | .ok ss =>
    let pfx := cfg.azureStorage.annotationsPath ++ jstr "/"
    collectMatchingAnnots ss pfx (listBlobsFlat st pfx)

/-- Per-blob sampleId extraction of `getProjectStats`: names with a `/`
must have exactly two segments, a non-empty second segment ending in
`.json`, and yield that segment with its first `.json` occurrence removed;
flat names yield the text before the first underscore.  `none` means the
blob contributes nothing to the set. -/
def statsEntrySampleId (pfx : JStr) (name : JStr) : Option JStr :=
  let fileName := removeFirst pfx name
  if fileName.contains '/' then
    let parts := splitChar '/' fileName
    if parts.length == 2 && !(parts.getD 1 []).isEmpty &&
        (jstr ".json").isSuffixOf (parts.getD 1 []) then
      let sampleId := removeFirst (jstr ".json") (parts.getD 1 [])
      if sampleId.isEmpty then none else some sampleId
    else none
  else
    let sampleId := (splitChar '_' fileName).headD []
    if sampleId.isEmpty then none else some sampleId

/-- Result record of `getProjectStats`. -/
structure ProjectStats where
  totalSamples : Nat
  annotatedSamples : Nat
  deriving DecidableEq

/-- Model of `AzureStorageService.getProjectStats` on an initialized
service: `totalSamples` is the configured sample count and
`annotatedSamples` the size of the set of sampleIds extracted from one scan
of the annotations prefix. -/
def getProjectStatsCore (cfg : ProjectCfg) (st : BlobStore) : ProjectStats :=
  let pfx := cfg.azureStorage.annotationsPath ++ jstr "/"
  let annotatedIds :=
    collectIds (fun kv => statsEntrySampleId pfx kv.1) [] (listBlobsFlat st pfx)
  { totalSamples := cfg.samples.length, annotatedSamples := annotatedIds.length }

/-- Per-blob sampleId extraction of the user-subdirectory scan of
`getAnnotatedSampleIdsForUser`: keep names ending in `.json`, remove the
first `.json` occurrence, and drop the result when empty. -/
def userDirEntrySampleId (userPfx : JStr) (name : JStr) : Option JStr :=
  let fileName := removeFirst userPfx name
  if (jstr ".json").isSuffixOf fileName then
    let sampleId := removeFirst (jstr ".json") fileName
    if sampleId.isEmpty then none else some sampleId
  else none

/-- Per-blob sampleId extraction of the legacy flat scan of
`getAnnotatedSampleIdsForUser`: skip names containing `/`, remove the first
`.json` occurrence, split on `_`, and when there are at least two parts and
the last equals the sanitized userId, yield the parts before it rejoined
with `_`. -/
def legacyEntrySampleId (pfx su : JStr) (name : JStr) : Option JStr :=
  let fileName := removeFirst pfx name
  if fileName.contains '/' then none
  else
    let parts := splitChar '_' (removeFirst (jstr ".json") fileName)
    if 2 ≤ parts.length then
      if parts.getLastD [] == su then
        some (List.intercalate (jstr "_") parts.dropLast)
      else none
    else none

/-- The set built by the two scans of `getAnnotatedSampleIdsForUser` for a
sanitized userId `su`: the user subdirectory first, then the flat legacy
names, accumulated into one insertion-ordered set. -/
def annotatedIdsSet (cfg : ProjectCfg) (st : BlobStore) (su : JStr) :
    List JStr :=
  let userPfx := cfg.azureStorage.annotationsPath ++ jstr "/" ++ su ++ jstr "/"
  let fromUserDir :=
    collectIds (fun kv => userDirEntrySampleId userPfx kv.1) []
      (listBlobsFlat st userPfx)
  let pfx := cfg.azureStorage.annotationsPath ++ jstr "/"
  collectIds (fun kv => legacyEntrySampleId pfx su kv.1) fromUserDir
    (listBlobsFlat st pfx)

/-- Model of `AzureStorageService.getAnnotatedSampleIdsForUser` on an
initialized service. -/
def getAnnotatedSampleIdsForUserCore (cfg : ProjectCfg) (st : BlobStore)
    (userId : JStr) : Except StoreErr (List JStr) :=
  match sanitizePath userId with
  | .error e => .error e
  | .ok su => .ok (annotatedIdsSet cfg st su)

/-- Model of `blobClient.url`: the full endpoint URL of a blob path. -/
def blobUrl (cfg : ProjectCfg) (blobPath : JStr) : JStr :=
  jstr "https://" ++ cfg.azureStorage.accountName ++
    jstr ".blob.core.windows.net/" ++ cfg.azureStorage.containerName ++
    jstr "/" ++ blobPath

/-- Model of `AzureStorageService.getSampleUrl` on an initialized service:
always build the key `{dataPath}/{fileName}`, check existence, and return
the blob URL, throwing `Sample not found` when the key is absent. -/
def getSampleUrlCore (cfg : ProjectCfg) (st : BlobStore) (sample : SampleInfo) :
    Except StoreErr JStr :=
  let blobPath := cfg.azureStorage.dataPath ++ jstr "/" ++ sample.fileName
  if blobExists st blobPath then .ok (blobUrl cfg blobPath)
  else .error .sampleNotFound

/-- Model of `AzureStorageService.getSampleData` on an initialized service:
always build the key `{dataPath}/{fileName}` and download it (the SDK
rejects the download of an absent blob, modelled as a storage error). -/
def getSampleDataCore (cfg : ProjectCfg) (st : BlobStore) (sample : SampleInfo) :
    Except StoreErr Blob :=
  let blobPath := cfg.azureStorage.dataPath ++ jstr "/" ++ sample.fileName
  match storeGet st blobPath with
  | some b => .ok b
  | none => .error .storageError

/-- Where `LocalFileService.getSampleData` reads from: a direct URL fetch
or a local file path. -/
inductive SampleDataSource where
  | url (u : JStr)
  | file (path : JStr)
  deriving DecidableEq

/-- Model of Node `path.join` restricted to the three-component call in
`LocalFileService.getSampleData`. -/
def pathJoin3 (a b c : JStr) : JStr := a ++ jstr "/" ++ b ++ jstr "/" ++ c

/-- Model of the source-selection logic of `LocalFileService.getSampleData`:
a fileName that is truthy and starts with `http` is fetched as a URL;
otherwise the file `{dataPath}/{basePath}/{fileName}` is read, where
`basePath` is the configured dataPath or `config` when missing or falsy. -/
def localSampleDataSource (dataPath : JStr) (cfgDataPath : Option JStr)
    (sample : SampleInfo) : SampleDataSource :=
  if !sample.fileName.isEmpty && (jstr "http").isPrefixOf sample.fileName then
    .url sample.fileName
  else
    let basePath :=
      match cfgDataPath with
      | some p => if p.isEmpty then jstr "config" else p
      | none => jstr "config"
    .file (pathJoin3 dataPath basePath sample.fileName)

/-!
Gated operations.  The service starts with `containerClient` and `config`
both null and `initialize` sets both, so the reachable service states are
modelled by `Option ProjectCfg`: `none` before initialization, `some cfg`
after `initialize(cfg)`.
-/

/-- `saveAnnotation` including the initialization gate. -/
def saveAnnot (svc : Option ProjectCfg) (st : BlobStore) (a : Annot) :
    BlobStore × Except StoreErr Unit :=
  match svc with
  | none => (st, .error .notInitialized)
  | some cfg => saveAnnotCore cfg st a

/-- `getAnnotation` including the initialization gate. -/
def getAnnot (svc : Option ProjectCfg) (st : BlobStore) (sampleId userId : JStr) :
    Except StoreErr (Option Annot) :=
  match svc with
  | none => .error .notInitialized
  | some cfg => getAnnotCore cfg st sampleId userId

/-- `listAnnotationsForSample` including the initialization gate. -/
def listAnnotsForSample (svc : Option ProjectCfg) (st : BlobStore)
    (sampleId : JStr) : Except StoreErr (List Annot) :=
  match svc with
  | none => .error .notInitialized
  | some cfg => listAnnotsForSampleCore cfg st sampleId

/-- `getProjectStats` including the initialization gate (the source checks
`this.config` and throws when it is null). -/
def getProjectStats (svc : Option ProjectCfg) (st : BlobStore) :
    Except StoreErr ProjectStats :=
  match svc with
  | none => .error .notInitialized
  | some cfg => .ok (getProjectStatsCore cfg st)

/-- `getSampleUrl` including the initialization gate. -/
def getSampleUrl (svc : Option ProjectCfg) (st : BlobStore) (sample : SampleInfo) :
    Except StoreErr JStr :=
  match svc with
  | none => .error .notInitialized
  | some cfg => getSampleUrlCore cfg st sample

/-- `getSampleData` including the initialization gate. -/
def getSampleData (svc : Option ProjectCfg) (st : BlobStore)
    (sample : SampleInfo) : Except StoreErr Blob :=
  match svc with
  | none => .error .notInitialized
  | some cfg => getSampleDataCore cfg st sample

/-- `getAnnotatedSampleIdsForUser` including its initialization check: the
source returns the empty set, not an error, when the service is not yet
initialized. -/
def getAnnotatedSampleIdsForUser (svc : Option ProjectCfg) (st : BlobStore)
    (userId : JStr) : Except StoreErr (List JStr) :=
  match svc with
  | none => .ok []
  | some cfg => getAnnotatedSampleIdsForUserCore cfg st userId

/-!
Spec-side classifiers.  These follow the specification text, not the
source, and exist to be compared with the behaviour of the source-derived
functions above.
-/

/-- The specification's current-layout classification for
`listAnnotationsForSample`: exactly two path segments under the prefix,
the second equal to `{sanitizedSampleId}.json` (the spec does not require
a non-empty first segment). -/
def specCurrentLayoutMatch (ss blobName : JStr) : Bool :=
  (splitChar '/' blobName).length == 2 &&
    (splitChar '/' blobName).getD 1 [] == ss ++ jstr ".json"

/-- The specification's legacy-layout classification for
`listAnnotationsForSample`: a one-segment key that starts with
`{sanitizedSampleId}_` and ends with `.json`. -/
def specLegacyLayoutMatch (ss blobName : JStr) : Bool :=
  (splitChar '/' blobName).length == 1 &&
    (ss ++ jstr "_").isPrefixOf blobName &&
    (jstr ".json").isSuffixOf blobName

/-- The specification's user-directory extraction for
`getAnnotatedSampleIdsForUser`: the `.json`-suffix-stripped leaf name of a
key under the user prefix (no restriction to `.json` keys). -/
def specUserDirSampleId (userPfx : JStr) (name : JStr) : JStr :=
  let leaf := removeFirst userPfx name
  if (jstr ".json").isSuffixOf leaf then leaf.take (leaf.length - 5) else leaf

/-- The payload of a well-formed blob, `none` for malformed content. -/
def blobAnnotOf : Blob → Option Annot
  | .json a => some a
  | .malformed => none

/-!
Concrete fixtures used by witnesses and counterexamples.
-/

/-- A project configuration with `annotationsPath = "annotations"` and
`dataPath = "data"`. -/
def cfgW : ProjectCfg :=
  { azureStorage :=
      { accountName := jstr "acct", containerName := jstr "cont",
        dataPath := jstr "data", annotationsPath := jstr "annotations" },
    samples := [] }

/-- A concrete record for sample `s1` by user `alice`. -/
def aW : Annot :=
  { id := jstr "a1", sampleId := jstr "s1", userId := jstr "alice",
    timestamp := jstr "t1", labels := [(jstr "category", .str (jstr "cat"))],
    status := jstr "submitted" }

/-- A second concrete record, by user `bob`. -/
def aW2 : Annot :=
  { id := jstr "a2", sampleId := jstr "s1", userId := jstr "bob",
    timestamp := jstr "t2", labels := [(jstr "category", .str (jstr "dog"))],
    status := jstr "submitted" }

/-- A store holding only a legacy-layout object for `(s1, alice)`. -/
def legacyStoreW : BlobStore :=
  [(jstr "annotations/s1_alice.json", .json aW2)]

/-- A store whose only key starts with `s_` and ends with `.json` but has
two path segments under the prefix. -/
def storeMixedSegW : BlobStore :=
  [(jstr "annotations/s_foo/bar.json", .json aW)]

/-- A store whose only key under the user subdirectory does not end in
`.json`. -/
def storeTxtW : BlobStore :=
  [(jstr "annotations/alice/readme.txt", .json aW)]

/-- A store holding one legacy key whose sampleId part contains
underscores. -/
def storeUnderscoreW : BlobStore :=
  [(jstr "annotations/sample_with_underscore_123_user42.json", .json aW)]

/-- A store with a current-layout and a legacy-layout key for the same
underscored sampleId `a_b`, by two different users. -/
def storeStatsW : BlobStore :=
  [(jstr "annotations/u/a_b.json", .json aW),
   (jstr "annotations/a_b_v.json", .json aW2)]

/-- A store for list-characterization witnesses: one current-layout match,
one legacy-layout match, one unrelated key. -/
def storeListW : BlobStore :=
  [(jstr "annotations/alice/s1.json", .json aW),
   (jstr "annotations/s1_bob.json", .json aW2),
   (jstr "annotations/other.txt", .malformed)]

/-- A store holding a well-formed current-layout object for `(s1, alice)`. -/
def currentStoreW : BlobStore :=
  [(jstr "annotations/alice/s1.json", .json aW)]

/-- A sample whose fileName is an absolute http URL. -/
def sampleUrlW : SampleInfo :=
  { id := jstr "s9", fileName := jstr "http://cdn.example.com/p.png" }

/-- A record whose userId is empty. -/
def aBlankUserW : Annot := { aW with userId := jstr "" }

/-- A record whose sampleId is all-whitespace. -/
def aBlankSampleW : Annot := { aW with sampleId := jstr "   " }

/-- A store holding a blob at the key the Azure service constructs for
`sampleUrlW`, namely `data/{fileName}` even though the fileName is a URL. -/
def storeUrlKeyW : BlobStore :=
  [(jstr "data/http://cdn.example.com/p.png", .json aW)]

/-!
Helper lemmas about the store and string models.
-/

theorem storeGet_map_overwrite (st : BlobStore) (k : JStr) (b : Blob)
    (h : st.any (fun kv => kv.1 == k) = true) :
    storeGet (st.map fun kv => if kv.1 == k then (k, b) else kv) k = some b := by
  induction st with
  | nil => simp at h
  | cons kv rest ih =>
    by_cases hk : kv.1 = k
    · simp [storeGet, hk]
    · have h' : rest.any (fun kv => kv.1 == k) = true := by
        simpa [List.any_cons, hk] using h
      simpa [storeGet, hk] using ih h'

theorem storeGet_append_single (st : BlobStore) (k : JStr) (b : Blob)
    (h : st.any (fun kv => kv.1 == k) = false) :
    storeGet (st ++ [(k, b)]) k = some b := by
  induction st with
  | nil => simp [storeGet]
  | cons kv rest ih =>
    have hk : ¬ kv.1 = k := by
      intro hkk
      simp [List.any_cons, hkk] at h
    have h' : rest.any (fun kv => kv.1 == k) = false := by
      simpa [List.any_cons, hk] using h
    simpa [storeGet, List.cons_append, hk] using ih h'

theorem storeGet_put_self (st : BlobStore) (k : JStr) (b : Blob) :
    storeGet (storePut st k b) k = some b := by
  unfold storePut
  split
  · rename_i h
    exact storeGet_map_overwrite st k b h
  · rename_i h
    exact storeGet_append_single st k b (Bool.eq_false_iff.mpr h)

theorem storeGet_map_other (st : BlobStore) (k k' : JStr) (b : Blob)
    (hne : k' ≠ k) :
    storeGet (st.map fun kv => if kv.1 == k then (k, b) else kv) k' =
      storeGet st k' := by
  induction st with
  | nil => rfl
  | cons kv rest ih =>
    by_cases hk : kv.1 = k
    · have hkk : ¬ (k : JStr) = k' := fun hh => hne hh.symm
      have hkv : ¬ kv.1 = k' := fun hh => hne (by rw [← hh, hk])
      simpa [storeGet, hk, hkk, hkv] using ih
    · by_cases hk' : kv.1 = k'
      · simp [storeGet, hk, hk', hne]
      · simpa [storeGet, hk, hk'] using ih

theorem storeGet_append_other (st : BlobStore) (k k' : JStr) (b : Blob)
    (hne : k' ≠ k) :
    storeGet (st ++ [(k, b)]) k' = storeGet st k' := by
  induction st with
  | nil => simp [storeGet, Ne.symm hne]
  | cons kv rest ih =>
    by_cases hk' : kv.1 = k'
    · simp [storeGet, List.cons_append, hk']
    · simpa [storeGet, List.cons_append, hk'] using ih

theorem storeGet_put_other (st : BlobStore) (k k' : JStr) (b : Blob)
    (hne : k' ≠ k) : storeGet (storePut st k b) k' = storeGet st k' := by
  unfold storePut
  split
  · exact storeGet_map_other st k k' b hne
  · exact storeGet_append_other st k k' b hne

theorem sanitizePath_ok (x y : JStr) (h : sanitizePath x = .ok y) :
    isBlank x = false ∧ y = x.map replChar := by
  unfold sanitizePath at h
  split at h
  · exact absurd h (by simp)
  · rename_i hb
    refine ⟨by simpa using hb, ?_⟩
    simpa using h.symm

theorem replChar_not_sep (c : Char) : isPathSep (replChar c) = false := by
  unfold replChar
  by_cases h : isPathSep c = true
  · rw [if_pos h]
    decide
  · rw [if_neg h]
    simpa using h

theorem replChar_idem (c : Char) : replChar (replChar c) = replChar c := by
  by_cases h : isPathSep c = true <;> simp [replChar, h]

theorem replChar_ws (c : Char) : isJsWhitespace (replChar c) = isJsWhitespace c := by
  by_cases h : isPathSep c = true
  · have hc : c = '/' ∨ c = '\\' ∨ c = '.' := by
      simpa [isPathSep, or_assoc] using h
    rcases hc with rfl | rfl | rfl <;> simp [replChar] <;> decide
  · simp [replChar, h]

theorem isBlank_map_replChar (x : JStr) :
    isBlank (x.map replChar) = isBlank x := by
  unfold isBlank
  rw [List.all_map]
  have : isJsWhitespace ∘ replChar = isJsWhitespace := funext fun c => replChar_ws c
  rw [this]

theorem not_sep_of_mem_sanitized (x : JStr) (a : Char)
    (ha : a ∈ x.map replChar) : isPathSep a = false := by
  obtain ⟨c, _, rfl⟩ := List.mem_map.mp ha
  exact replChar_not_sep c

theorem sanitizePath_idem_out (x y : JStr) (h : sanitizePath x = .ok y) :
    sanitizePath y = .ok y := by
  obtain ⟨hb, rfl⟩ := sanitizePath_ok x y h
  unfold sanitizePath
  rw [isBlank_map_replChar, hb]
  simp [List.map_map]
  exact fun c _ => replChar_idem c

theorem sanitized_not_contains (x y : JStr) (h : sanitizePath x = .ok y) :
    y.contains '/' = false ∧ y.contains '\\' = false ∧
      y.contains '.' = false := by
  obtain ⟨_, rfl⟩ := sanitizePath_ok x y h
  refine ⟨?_, ?_, ?_⟩ <;> {
    rw [Bool.eq_false_iff]
    intro hc
    have hm := List.mem_of_elem_eq_true hc
    have := not_sep_of_mem_sanitized x _ hm
    simp [isPathSep] at this
  }

theorem slash_not_mem_sanitized (x y : JStr) (h : sanitizePath x = .ok y) :
    '/' ∉ y := by
  intro hm
  obtain ⟨_, rfl⟩ := sanitizePath_ok x y h
  have := not_sep_of_mem_sanitized x _ hm
  simp [isPathSep] at this

theorem removeFirst_of_isPre (pat s : JStr) (h : pat.isPrefixOf s = true) :
    removeFirst pat s = s.drop pat.length := by
  cases s with
  | nil =>
    cases pat with
    | nil => rfl
    | cons c cs => simp [List.isPrefixOf] at h
  | cons c rest => simp [removeFirst, h]

theorem isPrefixOf_append_self (l t : JStr) : l.isPrefixOf (l ++ t) = true := by
  induction l with
  | nil => simp [List.isPrefixOf]
  | cons c cs ih => simp [List.isPrefixOf, ih]

theorem removeFirst_append (pfx t : JStr) : removeFirst pfx (pfx ++ t) = t := by
  rw [removeFirst_of_isPre _ _ (isPrefixOf_append_self pfx t)]
  exact List.drop_left pfx t

theorem dotjson_eq : jstr ".json" = ['.', 'j', 's', 'o', 'n'] := rfl

theorem removeFirst_json (s : JStr) (h : '.' ∉ s) :
    removeFirst (jstr ".json") (s ++ jstr ".json") = s := by
  induction s with
  | nil => rfl
  | cons c rest ih =>
    have hc : ¬ ('.' : Char) = c := by
      intro hcc
      exact h (hcc ▸ List.mem_cons_self c rest)
    have h' : '.' ∉ rest := fun hm => h (List.mem_cons_of_mem _ hm)
    have hpre : (jstr ".json").isPrefixOf (c :: (rest ++ jstr ".json")) = false := by
      rw [dotjson_eq]
      simp [List.isPrefixOf, hc]
    rw [List.cons_append]
    rw [removeFirst]
    simp only [hpre]
    simp [ih h']

theorem splitChar_no_sep (sep : Char) (t : JStr) (h : sep ∉ t) :
    splitChar sep t = [t] := by
  induction t with
  | nil => rfl
  | cons c rest ih =>
    have hc : ¬ c = sep := by
      intro hcc
      exact h (hcc ▸ List.mem_cons_self c rest)
    have h' : sep ∉ rest := fun hm => h (List.mem_cons_of_mem _ hm)
    simp [splitChar, hc, ih h']

theorem splitChar_append (sep : Char) (s t : JStr) (h : sep ∉ s) :
    splitChar sep (s ++ sep :: t) = s :: splitChar sep t := by
  induction s with
  | nil => simp [splitChar]
  | cons c rest ih =>
    have hc : ¬ c = sep := by
      intro hcc
      exact h (hcc ▸ List.mem_cons_self c rest)
    have h' : sep ∉ rest := fun hm => h (List.mem_cons_of_mem _ hm)
    simp [splitChar, hc, ih h']

theorem mem_setAdd (s : List JStr) (x y : JStr) :
    y ∈ setAdd s x ↔ y ∈ s ∨ y = x := by
  unfold setAdd
  split
  · rename_i hc
    have hx : x ∈ s := by
      simpa [List.contains] using List.mem_of_elem_eq_true hc
    constructor
    · exact Or.inl
    · rintro (hy | rfl)
      · exact hy
      · exact hx
  · simp

theorem setAdd_nodup (s : List JStr) (x : JStr) (h : s.Nodup) :
    (setAdd s x).Nodup := by
  unfold setAdd
  split
  · exact h
  · rename_i hc
    have hx : x ∉ s := by
      intro hm
      exact hc (by simpa [List.contains] using List.elem_eq_true_of_mem hm)
    simp [List.nodup_append, h, hx]

theorem mem_collectIds (f : JStr × Blob → Option JStr) (acc : List JStr)
    (l : List (JStr × Blob)) (y : JStr) :
    y ∈ collectIds f acc l ↔ y ∈ acc ∨ ∃ kv ∈ l, f kv = some y := by
  induction l generalizing acc with
  | nil => simp [collectIds]
  | cons kv rest ih =>
    unfold collectIds
    cases hf : f kv with
    | some s =>
      rw [ih]
      simp only [mem_setAdd, List.mem_cons, hf]
      constructor
      · rintro ((hy | rfl) | ⟨kv', hkv', hfy⟩)
        · exact Or.inl hy
        · exact Or.inr ⟨kv, Or.inl rfl, hf⟩
        · exact Or.inr ⟨kv', Or.inr hkv', hfy⟩
      · rintro (hy | ⟨kv', (rfl | hkv'), hfy⟩)
        · exact Or.inl (Or.inl hy)
        · rw [hf] at hfy
          exact Or.inl (Or.inr (Option.some.inj hfy).symm)
        · exact Or.inr ⟨kv', hkv', hfy⟩
    | none =>
      rw [ih]
      simp only [List.mem_cons]
      constructor
      · rintro (hy | ⟨kv', hkv', hfy⟩)
        · exact Or.inl hy
        · exact Or.inr ⟨kv', Or.inr hkv', hfy⟩
      · rintro (hy | ⟨kv', (rfl | hkv'), hfy⟩)
        · exact Or.inl hy
        · rw [hf] at hfy
          cases hfy
        · exact Or.inr ⟨kv', hkv', hfy⟩

theorem collectIds_nodup (f : JStr × Blob → Option JStr) (acc : List JStr)
    (l : List (JStr × Blob)) (h : acc.Nodup) : (collectIds f acc l).Nodup := by
  induction l generalizing acc with
  | nil => simpa [collectIds]
  | cons kv rest ih =>
    unfold collectIds
    cases hf : f kv with
    | some s => exact ih _ (setAdd_nodup _ _ h)
    | none => exact ih _ h

theorem isSuffixOf_append_self (t s : JStr) : t.isSuffixOf (s ++ t) = true := by
  unfold List.isSuffixOf
  rw [List.reverse_append]
  exact isPrefixOf_append_self t.reverse s.reverse

theorem contains_eq_false_of_not_mem {c : Char} {l : JStr} (h : c ∉ l) :
    l.contains c = false := by
  rw [Bool.eq_false_iff]
  intro hc
  exact h (List.mem_of_elem_eq_true hc)

theorem contains_eq_true_of_mem {c : Char} {l : JStr} (h : c ∈ l) :
    l.contains c = true :=
  List.elem_eq_true_of_mem h

theorem currentAnnotKey_decomp (ap su ss : JStr) :
    currentAnnotKey ap su ss =
      (ap ++ jstr "/") ++ (su ++ jstr "/" ++ ss ++ jstr ".json") := by
  simp [currentAnnotKey, List.append_assoc]

theorem legacyAnnotKey_decomp (ap ss su : JStr) :
    legacyAnnotKey ap ss su =
      (ap ++ jstr "/") ++ (ss ++ jstr "_" ++ su ++ jstr ".json") := by
  simp [legacyAnnotKey, List.append_assoc]

theorem slash_not_mem_dotjson : '/' ∉ jstr ".json" := by decide

theorem legacy_ne_current (ap su ss : JStr)
    (hsu : '/' ∉ su) (hss : '/' ∉ ss) :
    legacyAnnotKey ap ss su ≠ currentAnnotKey ap su ss := by
  intro h
  rw [legacyAnnotKey_decomp, currentAnnotKey_decomp] at h
  have h' := List.append_cancel_left h
  have hmem : '/' ∈ su ++ jstr "/" ++ ss ++ jstr ".json" := by
    simp [jstr]
  rw [← h'] at hmem
  simp only [List.append_assoc, List.mem_append] at hmem
  rcases hmem with hm | hm | hm | hm
  · exact hss hm
  · simp [jstr] at hm
  · exact hsu hm
  · exact slash_not_mem_dotjson hm

theorem collectMatchingAnnots_wf (ss pfx : JStr) (l : List (JStr × Blob))
    (hwf : ∀ kv ∈ l,
      (isNewStructureMatch ss (removeFirst pfx kv.1) ||
        isLegacyStructureMatch ss (removeFirst pfx kv.1)) = true →
      kv.2 ≠ Blob.malformed) :
    collectMatchingAnnots ss pfx l =
      .ok ((l.filter (fun kv =>
            isNewStructureMatch ss (removeFirst pfx kv.1) ||
              isLegacyStructureMatch ss (removeFirst pfx kv.1))).filterMap
          (fun kv => blobAnnotOf kv.2)) := by
  induction l with
  | nil => rfl
  | cons kv rest ih =>
    have hrest : ∀ kv ∈ rest,
        (isNewStructureMatch ss (removeFirst pfx kv.1) ||
          isLegacyStructureMatch ss (removeFirst pfx kv.1)) = true →
        kv.2 ≠ Blob.malformed :=
      fun kv' h' => hwf kv' (List.mem_cons_of_mem _ h')
    by_cases hm : (isNewStructureMatch ss (removeFirst pfx kv.1) ||
        isLegacyStructureMatch ss (removeFirst pfx kv.1)) = true
    · cases hb : kv.2 with
      | malformed => exact absurd hb (hwf kv (List.mem_cons_self kv rest) hm)
      | json a =>
        cases kv with
        | mk name b =>
          simp only at hb
          subst hb
          simp only [collectMatchingAnnots, List.filter_cons, hm,
            downloadBlobAsJson, if_pos, ih hrest, Except.map,
            List.filterMap_cons, blobAnnotOf]
    · cases kv with
      | mk name b =>
        simp only [collectMatchingAnnots, List.filter_cons, hm,
          downloadBlobAsJson, if_neg, ih hrest]
        simp [hm]

/-!
Claim theorems.
-/

/-- C2 counterexample: `sanitizePath` performs no percent-decoding and does
not replace `%`; the sanitized value of `%2e%2e` still contains `%` (and
still encodes `..`), contrary to the claim that the output contains no
`%` after an attempted percent-decode. -/
theorem C2_cex_percent_kept :
    sanitizePath (jstr "%2e%2e") = .ok (jstr "%2e%2e") ∧
      (jstr "%2e%2e").contains '%' = true :=
  ⟨rfl, rfl⟩

/-- C2 amended: for every identifier that is not empty or all-whitespace,
`sanitizePath` returns the input with every `/`, `\` and `.` replaced by
`_` (no percent-decoding, `%` and NUL pass through unchanged), so the
output contains no `/`, `\` or `.`, and sanitization is idempotent. -/
theorem C2_sanitize_replaces_only_separators (x y : JStr)
    (h : sanitizePath x = .ok y) :
    y = x.map replChar ∧ y.contains '/' = false ∧
      y.contains '\\' = false ∧ y.contains '.' = false ∧
      sanitizePath y = .ok y := by
  obtain ⟨h1, h2, h3⟩ := sanitized_not_contains x y h
  exact ⟨(sanitizePath_ok x y h).2, h1, h2, h3, sanitizePath_idem_out x y h⟩

/-- C2 witness: the amended statement at the spec's own test vector
`../../etc/passwd`. -/
theorem C2_witness :
    jstr "______etc_passwd" = (jstr "../../etc/passwd").map replChar ∧
      (jstr "______etc_passwd").contains '/' = false ∧
      (jstr "______etc_passwd").contains '\\' = false ∧
      (jstr "______etc_passwd").contains '.' = false ∧
      sanitizePath (jstr "______etc_passwd") = .ok (jstr "______etc_passwd") :=
  C2_sanitize_replaces_only_separators (jstr "../../etc/passwd")
    (jstr "______etc_passwd") rfl

/-- C3 counterexample: calling `getAnnotatedSampleIdsForUser` before
initialization does not fail with `NotInitialized`; it returns an empty
result set. -/
theorem C3_cex_user_ids_before_init :
    getAnnotatedSampleIdsForUser none [] (jstr "alice") = .ok [] ∧
      getAnnotatedSampleIdsForUser none [] (jstr "alice") ≠
        .error .notInitialized :=
  ⟨rfl, fun h => Except.noConfusion h⟩

/-- C3 amended: before `initialize`, every store operation other than
`getAnnotatedSampleIdsForUser` fails with `NotInitialized`;
`getAnnotatedSampleIdsForUser` instead returns an empty set. -/
theorem C3_before_init_behaviour (st : BlobStore) (a : Annot)
    (sid uid : JStr) (sample : SampleInfo) :
    saveAnnot none st a = (st, .error .notInitialized) ∧
    getAnnot none st sid uid = .error .notInitialized ∧
    listAnnotsForSample none st sid = .error .notInitialized ∧
    getProjectStats none st = .error .notInitialized ∧
    getSampleUrl none st sample = .error .notInitialized ∧
    getSampleData none st sample = .error .notInitialized ∧
    getAnnotatedSampleIdsForUser none st uid = .ok [] :=
  ⟨rfl, rfl, rfl, rfl, rfl, rfl, rfl⟩

/-- C9 counterexample: for a sample whose fileName is an absolute http URL,
`AzureStorageService.getSampleUrl` does not return that URL directly: on an
empty store it fails with `SampleNotFound`, and when a blob exists at the
constructed key `data/{fileName}` it returns the URL of that key. -/
theorem C9_cex_url_fileName_still_keyed :
    (jstr "http").isPrefixOf sampleUrlW.fileName = true ∧
    getSampleUrlCore cfgW [] sampleUrlW = .error .sampleNotFound ∧
    getSampleUrlCore cfgW storeUrlKeyW sampleUrlW =
      .ok (blobUrl cfgW (jstr "data/http://cdn.example.com/p.png")) :=
  ⟨rfl, rfl, rfl⟩

/-- C9 amended: only `LocalFileService.getSampleData` bypasses key
construction for fileNames starting with `http`; the Azure service's
`getSampleUrl` and `getSampleData` always resolve `{dataPath}/{fileName}`,
and when that key is absent `getSampleUrl` fails with `SampleNotFound`
(and `getSampleData`'s download fails at the storage layer). -/
theorem C9_sample_resolution (cfg : ProjectCfg) (st : BlobStore)
    (sample : SampleInfo) (dataPath : JStr) (cfgDataPath : Option JStr)
    (h0 : sample.fileName.isEmpty = false)
    (hurl : (jstr "http").isPrefixOf sample.fileName = true)
    (habs : blobExists st
      (cfg.azureStorage.dataPath ++ jstr "/" ++ sample.fileName) = false) :
    localSampleDataSource dataPath cfgDataPath sample = .url sample.fileName ∧
    getSampleUrlCore cfg st sample = .error .sampleNotFound ∧
    getSampleDataCore cfg st sample = .error .storageError := by
  simp only [List.append_assoc] at habs
  refine ⟨?_, ?_, ?_⟩
  · simp [localSampleDataSource, h0, hurl]
  · simp [getSampleUrlCore, habs]
  · cases hg : storeGet st (cfg.azureStorage.dataPath ++ (jstr "/" ++ sample.fileName)) with
    | some b =>
      rw [blobExists, hg] at habs
      simp at habs
    | none => simp [getSampleDataCore, hg]

/-- C9 witness: the amended statement at a concrete URL-named sample and a
store not holding the constructed key. -/
theorem C9_witness :
    localSampleDataSource (jstr "./config") none sampleUrlW =
      .url sampleUrlW.fileName ∧
    getSampleUrlCore cfgW legacyStoreW sampleUrlW = .error .sampleNotFound ∧
    getSampleDataCore cfgW legacyStoreW sampleUrlW = .error .storageError :=
  C9_sample_resolution cfgW legacyStoreW sampleUrlW (jstr "./config") none
    (by decide) (by decide) (by decide)

/-- C10: saving a record whose userId or sampleId is empty or
all-whitespace fails with `InvalidInput` and leaves the store unchanged
(the validation throw happens before any upload). -/
theorem C10_save_blank_rejected (cfg : ProjectCfg) (st : BlobStore) (a : Annot)
    (h : isBlank a.userId = true ∨ isBlank a.sampleId = true) :
    saveAnnotCore cfg st a = (st, .error .invalidInput) := by
  rcases h with h | h
  · simp [saveAnnotCore, sanitizePath, h]
  · by_cases hb : isBlank a.userId = true
    · simp [saveAnnotCore, sanitizePath, hb]
    · simp [saveAnnotCore, sanitizePath, hb, h]

/-- C10 witness: rejection at an empty userId and at an all-whitespace
sampleId, over a non-empty store that is returned unchanged. -/
theorem C10_witness :
    saveAnnotCore cfgW legacyStoreW aBlankUserW =
      (legacyStoreW, .error .invalidInput) ∧
    saveAnnotCore cfgW legacyStoreW aBlankSampleW =
      (legacyStoreW, .error .invalidInput) :=
  ⟨C10_save_blank_rejected cfgW legacyStoreW aBlankUserW (Or.inl (by decide)),
   C10_save_blank_rejected cfgW legacyStoreW aBlankSampleW (Or.inr (by decide))⟩

/-- C1: `getAnnotation` checks the current-layout key first: a well-formed
object there is returned; malformed content there fails with `CorruptData`
rather than falling back; when the current key is absent the legacy key is
consulted with the same corruption handling; when both are absent the
result is `none` rather than an error. -/
theorem C1_getAnnot_layered_lookup (cfg : ProjectCfg) (st : BlobStore)
    (sid uid su ss : JStr)
    (hu : sanitizePath uid = .ok su) (hs : sanitizePath sid = .ok ss) :
    (∀ a : Annot,
      storeGet st (currentAnnotKey cfg.azureStorage.annotationsPath su ss) =
          some (.json a) →
      getAnnotCore cfg st sid uid = .ok (some a)) ∧
    (storeGet st (currentAnnotKey cfg.azureStorage.annotationsPath su ss) =
        some .malformed →
      getAnnotCore cfg st sid uid = .error .corruptData) ∧
    (∀ a : Annot,
      storeGet st (currentAnnotKey cfg.azureStorage.annotationsPath su ss) =
          none →
      storeGet st (legacyAnnotKey cfg.azureStorage.annotationsPath ss su) =
          some (.json a) →
      getAnnotCore cfg st sid uid = .ok (some a)) ∧
    (storeGet st (currentAnnotKey cfg.azureStorage.annotationsPath su ss) =
        none →
      storeGet st (legacyAnnotKey cfg.azureStorage.annotationsPath ss su) =
          some .malformed →
      getAnnotCore cfg st sid uid = .error .corruptData) ∧
    (storeGet st (currentAnnotKey cfg.azureStorage.annotationsPath su ss) =
        none →
      storeGet st (legacyAnnotKey cfg.azureStorage.annotationsPath ss su) =
          none →
      getAnnotCore cfg st sid uid = .ok none) := by
  refine ⟨?_, ?_, ?_, ?_, ?_⟩
  · intro a hc
    simp [getAnnotCore, hu, hs, hc, downloadBlobAsJson, Except.map]
  · intro hc
    simp [getAnnotCore, hu, hs, hc, downloadBlobAsJson, Except.map]
  · intro a hc hl
    simp [getAnnotCore, hu, hs, hc, hl, downloadBlobAsJson, Except.map]
  · intro hc hl
    simp [getAnnotCore, hu, hs, hc, hl, downloadBlobAsJson, Except.map]
  · intro hc hl
    simp [getAnnotCore, hu, hs, hc, hl]

/-- C1 witness: the current-layout case at a concrete store. -/
theorem C1_witness :
    getAnnotCore cfgW currentStoreW (jstr "s1") (jstr "alice") =
      .ok (some aW) :=
  (C1_getAnnot_layered_lookup cfgW currentStoreW (jstr "s1") (jstr "alice")
    (jstr "alice") (jstr "s1") rfl rfl).1 aW rfl

/-- C4: saving a record whose identifiers survive sanitization and then
reading it back with the same raw identifiers returns the identical
record (the write goes to the current-layout key, which the read checks
first; JSON round-tripping preserves the record). -/
theorem C4_roundtrip (cfg : ProjectCfg) (st : BlobStore) (a : Annot)
    (hu : isBlank a.userId = false) (hs : isBlank a.sampleId = false) :
    getAnnotCore cfg (saveAnnotCore cfg st a).1 a.sampleId a.userId =
      .ok (some a) := by
  have hu' : sanitizePath a.userId = .ok (a.userId.map replChar) := by
    simp [sanitizePath, hu]
  have hs' : sanitizePath a.sampleId = .ok (a.sampleId.map replChar) := by
    simp [sanitizePath, hs]
  have hsave : (saveAnnotCore cfg st a).1 =
      storePut st
        (currentAnnotKey cfg.azureStorage.annotationsPath
          (a.userId.map replChar) (a.sampleId.map replChar))
        (.json a) := by
    simp [saveAnnotCore, hu', hs']
  rw [hsave]
  simp [getAnnotCore, hu', hs', storeGet_put_self, downloadBlobAsJson,
    Except.map]

/-- C4 witness: the round trip at a concrete record over an empty store. -/
theorem C4_witness :
    getAnnotCore cfgW (saveAnnotCore cfgW [] aW).1 aW.sampleId aW.userId =
      .ok (some aW) :=
  C4_roundtrip cfgW [] aW (by decide) (by decide)

/-- C5: with an object only at the legacy key, `getAnnotation` returns it;
after `saveAnnotation` with the same identifiers, `getAnnotation` returns
the newly saved record (the current-layout key now exists and wins), the
legacy object is untouched, and every key other than the current-layout
key is unchanged by the save. -/
theorem C5_legacy_fallback_and_frame (cfg : ProjectCfg) (st : BlobStore)
    (sid uid su ss : JStr) (a a' : Annot) (k : JStr)
    (hu : sanitizePath uid = .ok su) (hs : sanitizePath sid = .ok ss)
    (hcur : storeGet st
      (currentAnnotKey cfg.azureStorage.annotationsPath su ss) = none)
    (hleg : storeGet st
      (legacyAnnotKey cfg.azureStorage.annotationsPath ss su) = some (.json a))
    (hau : a'.userId = uid) (has : a'.sampleId = sid)
    (hk : k ≠ currentAnnotKey cfg.azureStorage.annotationsPath su ss) :
    getAnnotCore cfg st sid uid = .ok (some a) ∧
    getAnnotCore cfg (saveAnnotCore cfg st a').1 sid uid = .ok (some a') ∧
    storeGet (saveAnnotCore cfg st a').1
      (legacyAnnotKey cfg.azureStorage.annotationsPath ss su) =
      some (.json a) ∧
    storeGet (saveAnnotCore cfg st a').1 k = storeGet st k := by
  have hsave : (saveAnnotCore cfg st a').1 =
      storePut st (currentAnnotKey cfg.azureStorage.annotationsPath su ss)
        (.json a') := by
    simp [saveAnnotCore, hau, has, hu, hs]
  have hlc : legacyAnnotKey cfg.azureStorage.annotationsPath ss su ≠
      currentAnnotKey cfg.azureStorage.annotationsPath su ss :=
    legacy_ne_current _ su ss (slash_not_mem_sanitized uid su hu)
      (slash_not_mem_sanitized sid ss hs)
  refine ⟨?_, ?_, ?_, ?_⟩
  · simp [getAnnotCore, hu, hs, hcur, hleg, downloadBlobAsJson, Except.map]
  · rw [hsave]
    simp [getAnnotCore, hu, hs, storeGet_put_self, downloadBlobAsJson,
      Except.map]
  · rw [hsave, storeGet_put_other st _ _ _ hlc]
    exact hleg
  · rw [hsave]
    exact storeGet_put_other st _ _ _ hk

/-- C5 witness: the legacy fallback and frame at a concrete store holding
only `annotations/s1_alice.json`. -/
theorem C5_witness :
    getAnnotCore cfgW legacyStoreW (jstr "s1") (jstr "alice") =
      .ok (some aW2) ∧
    getAnnotCore cfgW (saveAnnotCore cfgW legacyStoreW aW).1 (jstr "s1")
      (jstr "alice") = .ok (some aW) ∧
    storeGet (saveAnnotCore cfgW legacyStoreW aW).1
      (legacyAnnotKey cfgW.azureStorage.annotationsPath (jstr "s1")
        (jstr "alice")) = some (.json aW2) ∧
    storeGet (saveAnnotCore cfgW legacyStoreW aW).1 (jstr "annotations/zzz.json") =
      storeGet legacyStoreW (jstr "annotations/zzz.json") :=
  C5_legacy_fallback_and_frame cfgW legacyStoreW (jstr "s1") (jstr "alice")
    (jstr "alice") (jstr "s1") aW2 aW (jstr "annotations/zzz.json")
    rfl rfl rfl rfl rfl rfl (by decide)

/-- C6 counterexample: the key `annotations/s_foo/bar.json` matches
neither of the claim's two classifications (its second segment is not
`s.json`, and it is not a one-segment key), yet `listAnnotationsForSample`
returns its content: the source's legacy test checks only the `s_` prefix
and `.json` suffix, with no one-segment restriction. -/
theorem C6_cex_legacy_match_in_subdir :
    listAnnotsForSampleCore cfgW storeMixedSegW (jstr "s") = .ok [aW] ∧
    specCurrentLayoutMatch (jstr "s") (jstr "s_foo/bar.json") = false ∧
    specLegacyLayoutMatch (jstr "s") (jstr "s_foo/bar.json") = false :=
  ⟨rfl, rfl, rfl⟩

/-- C6 amended: `listAnnotationsForSample` scans the annotations prefix and
returns, in listing order, the decoded contents of exactly the keys that
match the source's classification: current layout (exactly two segments,
non-empty first segment, second segment `{sanitizedSampleId}.json`) or
legacy layout (starts with `{sanitizedSampleId}_` and ends with `.json`,
regardless of path separators); all other keys are ignored without error.
The hypothesis restricts to stores whose matching blobs decode. -/
theorem C6_list_classification (cfg : ProjectCfg) (st : BlobStore)
    (sid ss : JStr) (hs : sanitizePath sid = .ok ss)
    (hwf : ∀ kv ∈ listBlobsFlat st (cfg.azureStorage.annotationsPath ++ jstr "/"),
      (isNewStructureMatch ss
          (removeFirst (cfg.azureStorage.annotationsPath ++ jstr "/") kv.1) ||
        isLegacyStructureMatch ss
          (removeFirst (cfg.azureStorage.annotationsPath ++ jstr "/") kv.1)) = true →
      kv.2 ≠ Blob.malformed) :
    listAnnotsForSampleCore cfg st sid =
      .ok (((listBlobsFlat st (cfg.azureStorage.annotationsPath ++ jstr "/")).filter
          (fun kv =>
            isNewStructureMatch ss
              (removeFirst (cfg.azureStorage.annotationsPath ++ jstr "/") kv.1) ||
            isLegacyStructureMatch ss
              (removeFirst (cfg.azureStorage.annotationsPath ++ jstr "/") kv.1))).filterMap
        (fun kv => blobAnnotOf kv.2)) := by
  simp only [listAnnotsForSampleCore, hs]
  exact collectMatchingAnnots_wf ss _ _ hwf

/-- C6 witness: the amended characterization at a store holding one
current-layout match, one legacy-layout match and one unrelated
(malformed) key. -/
theorem C6_witness :
    listAnnotsForSampleCore cfgW storeListW (jstr "s1") =
      .ok (((listBlobsFlat storeListW
            (cfgW.azureStorage.annotationsPath ++ jstr "/")).filter
          (fun kv =>
            isNewStructureMatch (jstr "s1")
              (removeFirst (cfgW.azureStorage.annotationsPath ++ jstr "/") kv.1) ||
            isLegacyStructureMatch (jstr "s1")
              (removeFirst (cfgW.azureStorage.annotationsPath ++ jstr "/") kv.1))).filterMap
        (fun kv => blobAnnotOf kv.2)) :=
  C6_list_classification cfgW storeListW (jstr "s1") (jstr "s1") rfl (by decide)

/-- C7 counterexample: the claim's part (a) takes the
`.json`-suffix-stripped leaf names of all keys under the user prefix, so
it would include `readme.txt`; the source only accepts keys ending in
`.json` and returns the empty set for this store. -/
theorem C7_cex_non_json_leaf :
    getAnnotatedSampleIdsForUserCore cfgW storeTxtW (jstr "alice") = .ok [] ∧
    specUserDirSampleId (jstr "annotations/alice/")
      (jstr "annotations/alice/readme.txt") = jstr "readme.txt" :=
  ⟨rfl, rfl⟩

/-- C7 amended: `getAnnotatedSampleIdsForUser` returns a deduplicated set
containing exactly the sampleIds extracted by the two scans: (a) keys
under `{annotationsPath}/{sanitizedUserId}/` that end in `.json`, taking
the key's remainder with its first `.json` occurrence removed, when
non-empty; (b) flat keys under `{annotationsPath}/` with no further path
separator whose `.json`-stripped name splits on its last underscore into a
sampleId and a trailing segment equal to the sanitized userId. -/
theorem C7_user_ids_characterization (cfg : ProjectCfg) (st : BlobStore)
    (uid su x : JStr) (hu : sanitizePath uid = .ok su) :
    getAnnotatedSampleIdsForUserCore cfg st uid =
      .ok (annotatedIdsSet cfg st su) ∧
    (annotatedIdsSet cfg st su).Nodup ∧
    (x ∈ annotatedIdsSet cfg st su ↔
      (∃ kv ∈ listBlobsFlat st
          (cfg.azureStorage.annotationsPath ++ jstr "/" ++ su ++ jstr "/"),
        userDirEntrySampleId
          (cfg.azureStorage.annotationsPath ++ jstr "/" ++ su ++ jstr "/")
          kv.1 = some x) ∨
      (∃ kv ∈ listBlobsFlat st (cfg.azureStorage.annotationsPath ++ jstr "/"),
        legacyEntrySampleId (cfg.azureStorage.annotationsPath ++ jstr "/") su
          kv.1 = some x)) := by
  refine ⟨by simp [getAnnotatedSampleIdsForUserCore, hu], ?_, ?_⟩
  · exact collectIds_nodup _ _ _ (collectIds_nodup _ _ _ List.nodup_nil)
  · unfold annotatedIdsSet
    rw [mem_collectIds, mem_collectIds]
    simp

/-- C7 witness: the legacy key
`annotations/sample_with_underscore_123_user42.json` is attributed to the
full sampleId before its last underscore, and the result set is
duplicate-free. -/
theorem C7_witness :
    getAnnotatedSampleIdsForUserCore cfgW storeUnderscoreW (jstr "user42") =
      .ok (annotatedIdsSet cfgW storeUnderscoreW (jstr "user42")) ∧
    (annotatedIdsSet cfgW storeUnderscoreW (jstr "user42")).Nodup ∧
    jstr "sample_with_underscore_123" ∈
      annotatedIdsSet cfgW storeUnderscoreW (jstr "user42") := by
  have h := C7_user_ids_characterization cfgW storeUnderscoreW (jstr "user42")
    (jstr "user42") (jstr "sample_with_underscore_123") rfl
  refine ⟨h.1, h.2.1, h.2.2.mpr (Or.inr ?_)⟩
  exact ⟨(jstr "annotations/sample_with_underscore_123_user42.json",
    Blob.json aW), by decide, by decide⟩

theorem statsEntry_current (ap ua s : JStr)
    (hs0 : s ≠ []) (hsd : '.' ∉ s) (hsl : '/' ∉ s) (hual : '/' ∉ ua) :
    statsEntrySampleId (ap ++ jstr "/") (currentAnnotKey ap ua s) = some s := by
  unfold statsEntrySampleId
  rw [currentAnnotKey_decomp, removeFirst_append]
  have hmid : ua ++ jstr "/" ++ s ++ jstr ".json" =
      ua ++ '/' :: (s ++ jstr ".json") := by
    simp [jstr, List.append_assoc]
  rw [hmid]
  have hnm : '/' ∉ s ++ jstr ".json" := by
    intro hm
    rcases List.mem_append.mp hm with h | h
    exacts [hsl h, slash_not_mem_dotjson h]
  have hcont : (ua ++ '/' :: (s ++ jstr ".json")).contains '/' = true :=
    contains_eq_true_of_mem (by simp)
  have hsplit : splitChar '/' (ua ++ '/' :: (s ++ jstr ".json")) =
      [ua, s ++ jstr ".json"] := by
    rw [splitChar_append '/' ua _ hual, splitChar_no_sep '/' _ hnm]
  have hne : (s ++ jstr ".json").isEmpty = false := by
    cases s <;> rfl
  have hse : s.isEmpty = false := by
    cases s with
    | nil => exact absurd rfl hs0
    | cons c t => rfl
  simp [hcont, hsplit, hne, isSuffixOf_append_self, removeFirst_json s hsd,
    hse]

theorem statsEntry_legacy (ap s ub : JStr)
    (hs0 : s ≠ []) (hsu : '_' ∉ s) (hsl : '/' ∉ s) (hubl : '/' ∉ ub) :
    statsEntrySampleId (ap ++ jstr "/") (legacyAnnotKey ap s ub) = some s := by
  unfold statsEntrySampleId
  rw [legacyAnnotKey_decomp, removeFirst_append]
  have hmid : s ++ jstr "_" ++ ub ++ jstr ".json" =
      s ++ '_' :: (ub ++ jstr ".json") := by
    simp [jstr, List.append_assoc]
  rw [hmid]
  have hnm : '/' ∉ s ++ '_' :: (ub ++ jstr ".json") := by
    intro hm
    rcases List.mem_append.mp hm with h | h
    · exact hsl h
    · rcases List.mem_cons.mp h with h | h
      · exact absurd h (by decide)
      · rcases List.mem_append.mp h with h | h
        exacts [hubl h, slash_not_mem_dotjson h]
  have hcont := contains_eq_false_of_not_mem hnm
  have hsplit : splitChar '_' (s ++ '_' :: (ub ++ jstr ".json")) =
      s :: splitChar '_' (ub ++ jstr ".json") :=
    splitChar_append '_' s _ hsu
  have hse : s.isEmpty = false := by
    cases s with
    | nil => exact absurd rfl hs0
    | cons c t => rfl
  simp only [hcont, Bool.false_eq_true, if_false, hsplit]
  simp [hse]

/-- C8 counterexample: a sampleId containing an underscore (`a_b`) with
one current-layout and one legacy-layout object is counted twice: the
legacy extraction takes the text before the FIRST underscore (`a`), which
differs from the current-layout extraction (`a_b`). -/
theorem C8_cex_underscore_double_count :
    jstr "annotations/u/a_b.json" =
      currentAnnotKey (jstr "annotations") (jstr "u") (jstr "a_b") ∧
    jstr "annotations/a_b_v.json" =
      legacyAnnotKey (jstr "annotations") (jstr "a_b") (jstr "v") ∧
    (getProjectStatsCore cfgW storeStatsW).annotatedSamples = 2 :=
  ⟨rfl, rfl, rfl⟩

/-- C8 amended: for a sampleId containing no underscore (and no `/` or
`.json`-fragment, as produced by sanitization), a store holding exactly
one current-layout and one legacy-layout object for that sampleId by two
users yields `annotatedSamples = 1`. -/
theorem C8_stats_dedup (cfg : ProjectCfg) (s ua ub : JStr) (b1 b2 : Blob)
    (hs0 : s ≠ []) (hsu : '_' ∉ s) (hsl : '/' ∉ s) (hsd : '.' ∉ s)
    (hual : '/' ∉ ua) (hubl : '/' ∉ ub) :
    (getProjectStatsCore cfg
        [(currentAnnotKey cfg.azureStorage.annotationsPath ua s, b1),
         (legacyAnnotKey cfg.azureStorage.annotationsPath s ub, b2)]).annotatedSamples
      = 1 := by
  have hpfx1 : (cfg.azureStorage.annotationsPath ++ jstr "/").isPrefixOf
      (currentAnnotKey cfg.azureStorage.annotationsPath ua s) = true := by
    rw [currentAnnotKey_decomp]
    exact isPrefixOf_append_self _ _
  have hpfx2 : (cfg.azureStorage.annotationsPath ++ jstr "/").isPrefixOf
      (legacyAnnotKey cfg.azureStorage.annotationsPath s ub) = true := by
    rw [legacyAnnotKey_decomp]
    exact isPrefixOf_append_self _ _
  simp [getProjectStatsCore, listBlobsFlat, hpfx1, hpfx2, collectIds,
    statsEntry_current cfg.azureStorage.annotationsPath ua s hs0 hsd hsl hual,
    statsEntry_legacy cfg.azureStorage.annotationsPath s ub hs0 hsu hsl hubl,
    setAdd]

/-- C8 witness: dedup of the two layouts at the underscore-free sampleId
`s1`. -/
theorem C8_witness :
    (getProjectStatsCore cfgW
        [(currentAnnotKey cfgW.azureStorage.annotationsPath (jstr "alice")
            (jstr "s1"), .json aW),
         (legacyAnnotKey cfgW.azureStorage.annotationsPath (jstr "s1")
            (jstr "bob"), .json aW2)]).annotatedSamples = 1 :=
  C8_stats_dedup cfgW (jstr "s1") (jstr "alice") (jstr "bob")
    (.json aW) (.json aW2) (by decide) (by decide) (by decide) (by decide)
    (by decide) (by decide)

end LabelMaker
